import Mathlib

/-!
Shallow embedding of the market-cap aggregation pipeline in `src/main.py`
(token resolution with a persistent URL cache, historical series fetching
with a point cache, rolling-mean smoothing, cross-platform outer-join
combination and monthly resampling), together with proofs of the
specification's claims about it.

External interactions (HTTP page fetches and chart-endpoint calls) are
modelled by oracle functions mapping a URL (resp. a numeric id) to the
observable outcome of the remote call; the SQLite tables are modelled as
lists of rows in insertion order.  Floating-point values are modelled as
rationals.
-/

namespace SolVsEth

/-- Row of the `url_cache` table: primary key `url`, nullable `cmc_id` and
`chain`. -/
structure UrlRow where
  url : String
  cmc_id : Option Nat
  chain : Option String
deriving DecidableEq

/-- Row of the `market_cap_cache` table: key `(cmc_id, timestamp)`, value
`market_cap`. -/
structure McRow where
  cmc_id : Nat
  timestamp : Nat
  market_cap : ℚ
deriving DecidableEq

/-- The persistent SQLite store with its two tables, rows in insertion
order. -/
structure Store where
  urlCache : List UrlRow
  mcCache : List McRow
deriving DecidableEq

/-- Element of the `platforms` array embedded in a token page. -/
structure PlatformObj where
  contractPlatform : String
deriving DecidableEq

/-- Observable outcome of fetching and parsing one CoinMarketCap token page
in `get_token_info`: an HTTP 404 or transport error, a page without usable
embedded JSON (missing `__NEXT_DATA__` script tag or JSON decode error), an
exception while extracting fields, or the extracted detail record with its
nullable `id` and `platforms` array. -/
inductive PageOutcome where
  | httpError
  | noEmbeddedJson
  | extractError
  | detail (id : Option Nat) (platforms : List PlatformObj)
deriving DecidableEq

/-- Python `str.capitalize`: first character upper-cased, the rest
lower-cased. -/
def pyCapitalize (s : String) : String :=
  match s.data with
  | [] => ""
  | c :: cs => String.mk (c.toUpper :: cs.map Char.toLower)

/-- Platform-name normalization in `get_token_info`: split on whitespace
(dropping empty words, as Python `str.split()` does), capitalize each word,
re-join with single spaces. -/
def standardizeChain (s : String) : String :=
  " ".intercalate (((s.split Char.isWhitespace).filter (fun w => !(w == ""))).map pyCapitalize)

/-- Embedding of `get_token_info(url, conn)`.  Returns the `(cmc_id, chain)`
pair, the updated store, and the number of external page fetches performed
(0 on a cache hit, 1 otherwise).  Every failure branch of the source inserts
a fully-`NULL` row and returns `(None, None)`; the success branch requires a
non-empty stripped platform name and a truthy (non-zero, non-null) id. -/
def get_token_info (world : String → PageOutcome) (url : String) (st : Store) :
    (Option Nat × Option String) × Store × Nat :=
  match st.urlCache.find? (fun r => r.url == url) with
  | some r => ((if r.cmc_id.isSome then (r.cmc_id, r.chain) else (none, none)), st, 0)
  | none =>
    let neg : (Option Nat × Option String) × Store × Nat :=
      ((none, none), { st with urlCache := st.urlCache ++ [⟨url, none, none⟩] }, 1)
    match world url with
    | .httpError => neg
    | .noEmbeddedJson => neg
    | .extractError => neg
    | .detail id platforms =>
      match platforms with
      | [] => neg
      | first :: _ =>
        let platform_name := first.contractPlatform.trim
        if platform_name = "" then neg
        else
          let standardized_chain := standardizeChain platform_name
          match id with
          | none => neg
          | some n =>
            if n = 0 then neg
            else
              ((some n, some standardized_chain),
               { st with urlCache := st.urlCache ++ [⟨url, some n, some standardized_chain⟩] }, 1)

/-- Generic helper: a failed search commutes over an append. -/
theorem find?_append_of_none {α : Type _} {p : α → Bool} {l₁ : List α} (l₂ : List α)
    (h : l₁.find? p = none) : (l₁ ++ l₂).find? p = l₂.find? p := by
  induction l₁ with
  | nil => rfl
  | cons a t ih =>
    rw [List.cons_append]
    cases hp : p a with
    | true => rw [List.find?_cons_of_pos _ hp] at h; simp at h
    | false =>
      rw [List.find?_cons_of_neg _ (by simp [hp])] at h
      rw [List.find?_cons_of_neg _ (by simp [hp])]
      exact ih h

/-- Generic helper: a successful search is preserved by an append. -/
theorem find?_append_of_some {α : Type _} {p : α → Bool} {l₁ : List α} {a : α} (l₂ : List α)
    (h : l₁.find? p = some a) : (l₁ ++ l₂).find? p = some a := by
  induction l₁ with
  | nil => simp at h
  | cons b t ih =>
    rw [List.cons_append]
    cases hp : p b with
    | true =>
      rw [List.find?_cons_of_pos _ hp] at h
      rw [List.find?_cons_of_pos _ hp]
      exact h
    | false =>
      rw [List.find?_cons_of_neg _ (by simp [hp])] at h
      rw [List.find?_cons_of_neg _ (by simp [hp])]
      exact ih h

/-- Behaviour of `get_token_info` on a cache hit: the stored row is returned
(normalised to `(None, None)` when its id is `NULL`), nothing is written and
no external fetch happens. -/
theorem get_token_info_hit (world : String → PageOutcome) (url : String) (st : Store)
    (r : UrlRow) (h : st.urlCache.find? (fun x => x.url == url) = some r) :
    get_token_info world url st =
      ((if r.cmc_id.isSome then (r.cmc_id, r.chain) else (none, none)), st, 0) := by
  unfold get_token_info
  rw [h]

/-- Behaviour of `get_token_info` on a cache miss: exactly one row keyed by
the URL is appended, the returned pair is that row's contents (normalised
through the same `NULL`-id test the hit path uses), one external fetch
happens, and the row is either fully negative or has a non-zero id together
with a chain name. -/
theorem get_token_info_miss (world : String → PageOutcome) (url : String) (st : Store)
    (h : st.urlCache.find? (fun x => x.url == url) = none) :
    ∃ row : UrlRow, row.url = url ∧
      get_token_info world url st =
        ((if row.cmc_id.isSome then (row.cmc_id, row.chain) else (none, none)),
         { st with urlCache := st.urlCache ++ [row] }, 1) ∧
      (row = ⟨url, none, none⟩ ∨ ∃ n c, n ≠ 0 ∧ row = ⟨url, some n, some c⟩) := by
  unfold get_token_info
  rw [h]
  cases hw : world url with
  | httpError => exact ⟨⟨url, none, none⟩, rfl, rfl, Or.inl rfl⟩
  | noEmbeddedJson => exact ⟨⟨url, none, none⟩, rfl, rfl, Or.inl rfl⟩
  | extractError => exact ⟨⟨url, none, none⟩, rfl, rfl, Or.inl rfl⟩
  | detail id platforms =>
    cases platforms with
    | nil => exact ⟨⟨url, none, none⟩, rfl, rfl, Or.inl rfl⟩
    | cons first rest =>
      by_cases hp : first.contractPlatform.trim = ""
      · refine ⟨⟨url, none, none⟩, rfl, ?_, Or.inl rfl⟩
        simp only [if_pos hp]
        rfl
      · simp only [if_neg hp]
        cases id with
        | none => exact ⟨⟨url, none, none⟩, rfl, rfl, Or.inl rfl⟩
        | some n =>
          by_cases hn : n = 0
          · refine ⟨⟨url, none, none⟩, rfl, ?_, Or.inl rfl⟩
            simp only [if_pos hn]
            rfl
          · refine ⟨⟨url, some n, some (standardizeChain first.contractPlatform.trim)⟩, rfl, ?_,
              Or.inr ⟨n, _, hn, rfl⟩⟩
            simp only [if_neg hn]
            rfl

/-- All-or-nothing shape of a `url_cache` row: either a non-zero id together
with a chain name, or both columns `NULL`. -/
def rowAllOrNothing (r : UrlRow) : Prop :=
  (∃ n c, n ≠ 0 ∧ r.cmc_id = some n ∧ r.chain = some c) ∨ (r.cmc_id = none ∧ r.chain = none)

/-- C1: resolving a URL a second time against the same cache store returns the
identical `(identifier, platform)` pair, performs no second external page
fetch and leaves the store unchanged; the first resolution performs at most
one external fetch; a failed first resolution is cached as a fully negative
row; and once a URL has a cached row, any later `get_token_info` call (for
any URL) preserves that row, and resolving the URL is answered from it with
zero external fetches. -/
theorem resolution_cache_idempotent (world : String → PageOutcome) (url : String) (st : Store) :
    (get_token_info world url (get_token_info world url st).2.1).1 =
      (get_token_info world url st).1 ∧
    (get_token_info world url (get_token_info world url st).2.1).2.1 =
      (get_token_info world url st).2.1 ∧
    (get_token_info world url (get_token_info world url st).2.1).2.2 = 0 ∧
    (get_token_info world url st).2.2 ≤ 1 ∧
    ((st.urlCache.find? (fun x => x.url == url) = none ∧
        (get_token_info world url st).1 = (none, none)) →
      (get_token_info world url st).2.1.urlCache = st.urlCache ++ [⟨url, none, none⟩]) ∧
    (∀ (st' : Store) (url' : String) (r : UrlRow),
      st'.urlCache.find? (fun x => x.url == url) = some r →
        (get_token_info world url' st').2.1.urlCache.find? (fun x => x.url == url) = some r ∧
        get_token_info world url st' =
          ((if r.cmc_id.isSome then (r.cmc_id, r.chain) else (none, none)), st', 0)) := by
  have persist : ∀ (st' : Store) (url' : String) (r : UrlRow),
      st'.urlCache.find? (fun x => x.url == url) = some r →
        (get_token_info world url' st').2.1.urlCache.find? (fun x => x.url == url) = some r ∧
        get_token_info world url st' =
          ((if r.cmc_id.isSome then (r.cmc_id, r.chain) else (none, none)), st', 0) := by
    intro st' url' r hr
    refine ⟨?_, get_token_info_hit world url st' r hr⟩
    rcases hfind : st'.urlCache.find? (fun x => x.url == url') with _ | r'
    · obtain ⟨row, hurl, heq, hdisj⟩ := get_token_info_miss world url' st' hfind
      rw [heq]
      exact find?_append_of_some _ hr
    · rw [get_token_info_hit world url' st' r' hfind]
      exact hr
  rcases hfind : st.urlCache.find? (fun x => x.url == url) with _ | r
  · obtain ⟨row, hurl, heq, hdisj⟩ := get_token_info_miss world url st hfind
    have hfind2 : ({ st with urlCache := st.urlCache ++ [row] } : Store).urlCache.find?
        (fun x => x.url == url) = some row := by
      show (st.urlCache ++ [row]).find? (fun x => x.url == url) = some row
      rw [find?_append_of_none _ hfind]
      apply List.find?_cons_of_pos
      simp [hurl]
    simp only [heq]
    rw [get_token_info_hit world url _ row hfind2]
    refine ⟨by trivial, by trivial, by trivial, by omega, ?_, persist⟩
    intro hv
    rcases hdisj with rfl | ⟨n, c, hn, rfl⟩
    · rfl
    · simp at hv
  · simp only [get_token_info_hit world url st r hfind]
    refine ⟨by trivial, by trivial, by trivial, by omega,
      fun hv => absurd (hfind ▸ hv.1) (by simp), persist⟩

/-- Closed witness for the resolution-cache idempotence theorem at a concrete
world, URL and empty store. -/
theorem resolution_cache_idempotent_witness :
    ((⟨[], []⟩ : Store).urlCache.find? (fun x => x.url == "u") = none ∧
      (get_token_info (fun _ => PageOutcome.httpError) "u" ⟨[], []⟩).1 = (none, none)) ∧
    (get_token_info (fun _ => PageOutcome.httpError) "u" ⟨[], []⟩).2.1.urlCache =
      [⟨"u", none, none⟩] :=
  ⟨⟨rfl, rfl⟩,
    (resolution_cache_idempotent (fun _ => PageOutcome.httpError) "u" ⟨[], []⟩).2.2.2.2.1
      ⟨rfl, rfl⟩⟩

/-- C10: `url_cache` rows are all-or-nothing (both columns present with a
non-zero id, or both `NULL`), the pair returned by `get_token_info` has the
same shape, and on a fresh URL a resolver outcome with a falsy id (`None` or
`0`) or an empty-after-strip platform name produces the fully negative
result. -/
theorem resolution_record_all_or_nothing (world : String → PageOutcome) (url : String)
    (st : Store) (hinv : ∀ r ∈ st.urlCache, rowAllOrNothing r) :
    (∀ r ∈ (get_token_info world url st).2.1.urlCache, rowAllOrNothing r) ∧
    ((∃ n c, n ≠ 0 ∧ (get_token_info world url st).1 = (some n, some c)) ∨
      (get_token_info world url st).1 = (none, none)) ∧
    (st.urlCache.find? (fun x => x.url == url) = none →
      ∀ id platforms, world url = PageOutcome.detail id platforms →
        ((id = none ∨ id = some 0) → (get_token_info world url st).1 = (none, none)) ∧
        (∀ p rest, platforms = p :: rest → p.contractPlatform.trim = "" →
          (get_token_info world url st).1 = (none, none))) := by
  rcases hfind : st.urlCache.find? (fun x => x.url == url) with _ | r
  · obtain ⟨row, hurl, heq, hdisj⟩ := get_token_info_miss world url st hfind
    refine ⟨?_, ?_, ?_⟩
    · simp only [heq]
      intro r hr
      rcases List.mem_append.1 hr with hr | hr
      · exact hinv r hr
      · rcases List.mem_singleton.1 hr with rfl
        rcases hdisj with rfl | ⟨n, c, hn, rfl⟩
        · exact Or.inr ⟨rfl, rfl⟩
        · exact Or.inl ⟨n, c, hn, rfl, rfl⟩
    · simp only [heq]
      rcases hdisj with rfl | ⟨n, c, hn, rfl⟩
      · exact Or.inr rfl
      · exact Or.inl ⟨n, c, hn, rfl⟩
    · intro hnone id platforms hw
      constructor
      · intro hid
        unfold get_token_info
        rw [hnone, hw]
        cases platforms with
        | nil => rcases hid with rfl | rfl <;> rfl
        | cons p rest =>
          by_cases hp : p.contractPlatform.trim = ""
          · simp only [if_pos hp]
          · simp only [if_neg hp]
            rcases hid with rfl | rfl
            · rfl
            · simp only [if_pos rfl]
              try rfl
      · intro p rest hps hp
        subst hps
        unfold get_token_info
        rw [hnone, hw]
        simp only [if_pos hp]
        try rfl
  · have hr : r ∈ st.urlCache := List.mem_of_find?_eq_some hfind
    simp only [get_token_info_hit world url st r hfind]
    refine ⟨hinv, ?_, fun hnone => absurd (hfind ▸ hnone) (by simp)⟩
    rcases hinv r hr with ⟨n, c, hn, h1, h2⟩ | ⟨h1, h2⟩
    · rw [h1, h2]
      exact Or.inl ⟨n, c, hn, rfl⟩
    · rw [h1, h2]
      exact Or.inr rfl

/-- Closed witness for the all-or-nothing theorem: a page whose detail record
carries the falsy id `0` resolves to the fully negative pair. -/
theorem resolution_record_all_or_nothing_witness :
    (get_token_info (fun _ => PageOutcome.detail (some 0) [⟨"solana"⟩]) "u" ⟨[], []⟩).1 =
      (none, none) :=
  ((resolution_record_all_or_nothing (fun _ => PageOutcome.detail (some 0) [⟨"solana"⟩])
      "u" ⟨[], []⟩ (by simp)).2.2 rfl (some 0) [⟨"solana"⟩] rfl).1 (Or.inr rfl)

/-- Value object attached to one timestamp key in the chart endpoint's
`data.points` mapping: an optional `c` array. -/
structure PointVal where
  c : Option (List ℚ)
deriving DecidableEq

/-- Observable outcome of the chart-endpoint request in
`get_historical_market_cap`: an HTTP 404, a transport-level request
exception, a JSON decode error, a JSON body without `data.points`, or the
`data.points` items in iteration order. -/
inductive ChartOutcome where
  | status404
  | requestError
  | jsonDecodeError
  | badShape
  | points (pts : List (Nat × PointVal))
deriving DecidableEq

/-- Market-cap extraction for one point: `values["c"][2]` when the `c` array
is present with more than two elements, else `0`. -/
def extractMarketCap (v : PointVal) : ℚ :=
  match v.c with
  | some cs => if 2 < cs.length then cs.getD 2 0 else 0
  | none => 0

/-- Embedding of `get_historical_market_cap(cmc_id, conn)`.  Returns the
series as a list of `(date, market_cap)` pairs (dates are timestamps
truncated to day granularity, `ts / 86400`) or `none`, the updated store,
and the number of remote chart-endpoint requests performed.  The cache is
consulted first; any remote failure returns `none` without writing; a
successful non-empty parse is bulk-inserted and the series is built from
the freshly parsed data. -/
def get_historical_market_cap (world : Nat → ChartOutcome) (cmc_id : Nat) (st : Store) :
    Option (List (Nat × ℚ)) × Store × Nat :=
  let rows := st.mcCache.filter (fun r => r.cmc_id == cmc_id)
  if rows.isEmpty then
    match world cmc_id with
    | .status404 => (none, st, 1)
    | .requestError => (none, st, 1)
    | .jsonDecodeError => (none, st, 1)
    | .badShape => (none, st, 1)
    | .points pts =>
      let market_cap_data := pts.map (fun p => (p.1, extractMarketCap p.2))
      if market_cap_data.isEmpty then (none, st, 1)
      else
        (some (market_cap_data.map (fun p => (p.1 / 86400, p.2))),
         { st with mcCache := st.mcCache ++ market_cap_data.map (fun p => ⟨cmc_id, p.1, p.2⟩) },
         1)
  else
    (some (rows.map (fun r => (r.timestamp / 86400, r.market_cap))), st, 0)

/-- C2: when the point cache already holds at least one row for an
identifier, fetching its historical series performs no remote request,
writes nothing, and the returned series is built entirely from the cached
rows (timestamps truncated to days, cache order). -/
theorem cached_points_no_remote (world : Nat → ChartOutcome) (cmc_id : Nat) (st : Store)
    (h : st.mcCache.filter (fun r => r.cmc_id == cmc_id) ≠ []) :
    get_historical_market_cap world cmc_id st =
      (some ((st.mcCache.filter (fun r => r.cmc_id == cmc_id)).map
          (fun r => (r.timestamp / 86400, r.market_cap))),
       st, 0) := by
  unfold get_historical_market_cap
  rw [if_neg (by simpa [List.isEmpty_iff] using h)]

/-- Closed witness for the cached-points theorem: one cached row for id 5,
fetched with zero remote calls. -/
theorem cached_points_no_remote_witness :
    ((⟨[], [⟨5, 100000, 3⟩]⟩ : Store).mcCache.filter (fun r => r.cmc_id == 5) ≠ []) ∧
    get_historical_market_cap (fun _ => ChartOutcome.status404) 5 ⟨[], [⟨5, 100000, 3⟩]⟩ =
      (some [(1, 3)], ⟨[], [⟨5, 100000, 3⟩]⟩, 0) :=
  ⟨by decide, by
    rw [cached_points_no_remote (fun _ => ChartOutcome.status404) 5 ⟨[], [⟨5, 100000, 3⟩]⟩
      (by decide)]
    decide⟩

/-- C3: when the cache is empty for an identifier and the remote fetch
fails (404, transport error or malformed JSON), the fetch returns `none`,
writes nothing to the store, and — the store being unchanged — a repeated
invocation performs a remote request again. -/
theorem failed_fetch_absent_no_write (world : Nat → ChartOutcome) (cmc_id : Nat) (st : Store)
    (hempty : st.mcCache.filter (fun r => r.cmc_id == cmc_id) = [])
    (hfail : world cmc_id = ChartOutcome.status404 ∨ world cmc_id = ChartOutcome.requestError ∨
      world cmc_id = ChartOutcome.jsonDecodeError) :
    get_historical_market_cap world cmc_id st = (none, st, 1) ∧
    (get_historical_market_cap world cmc_id
      (get_historical_market_cap world cmc_id st).2.1).2.2 = 1 := by
  have h1 : get_historical_market_cap world cmc_id st = (none, st, 1) := by
    unfold get_historical_market_cap
    rw [if_pos (by simp [hempty, List.isEmpty_iff])]
    rcases hfail with h | h | h <;> rw [h]
  refine ⟨h1, ?_⟩
  simp [h1]

/-- Closed witness for the failed-fetch theorem at a concrete transport
error and empty store. -/
theorem failed_fetch_absent_no_write_witness :
    ((⟨[], []⟩ : Store).mcCache.filter (fun r => r.cmc_id == 7) = []) ∧
    get_historical_market_cap (fun _ => ChartOutcome.requestError) 7 ⟨[], []⟩ =
      (none, ⟨[], []⟩, 1) :=
  ⟨by decide,
    (failed_fetch_absent_no_write (fun _ => ChartOutcome.requestError) 7 ⟨[], []⟩
      (by decide) (Or.inr (Or.inl rfl))).1⟩

/-- C8: on a successful chart response the parsed value of each point is
element 2 of its `c` array when that array exists with more than two
elements and `0` otherwise, and an empty `data.points` mapping makes the
fetch return `none`; a non-empty mapping yields the series of
day-truncated timestamps paired with the extracted values. -/
theorem parse_points_spec (world : Nat → ChartOutcome) (cmc_id : Nat) (st : Store)
    (pts : List (Nat × PointVal))
    (hempty : st.mcCache.filter (fun r => r.cmc_id == cmc_id) = [])
    (hw : world cmc_id = ChartOutcome.points pts) :
    (pts = [] → get_historical_market_cap world cmc_id st = (none, st, 1)) ∧
    (pts ≠ [] →
      (get_historical_market_cap world cmc_id st).1 =
        some (pts.map (fun p => (p.1 / 86400, extractMarketCap p.2)))) ∧
    (∀ (v : PointVal) (cs : List ℚ), v.c = some cs → 2 < cs.length →
      extractMarketCap v = cs.getD 2 0) ∧
    (∀ v : PointVal, (v.c = none ∨ ∃ cs, v.c = some cs ∧ cs.length ≤ 2) →
      extractMarketCap v = 0) := by
  have hbranch : ∀ m, get_historical_market_cap world cmc_id st = m ↔
      (match world cmc_id with
        | ChartOutcome.status404 => ((none : Option (List (Nat × ℚ))), st, 1)
        | ChartOutcome.requestError => (none, st, 1)
        | ChartOutcome.jsonDecodeError => (none, st, 1)
        | ChartOutcome.badShape => (none, st, 1)
        | ChartOutcome.points pts =>
          let market_cap_data := pts.map (fun p => (p.1, extractMarketCap p.2))
          if market_cap_data.isEmpty then (none, st, 1)
          else
            (some (market_cap_data.map (fun p => (p.1 / 86400, p.2))),
             { st with mcCache :=
                st.mcCache ++ market_cap_data.map (fun p => ⟨cmc_id, p.1, p.2⟩) },
             1)) = m := by
    intro m
    unfold get_historical_market_cap
    rw [if_pos (by simp [hempty, List.isEmpty_iff])]
  refine ⟨?_, ?_, ?_, ?_⟩
  · intro hnil
    subst hnil
    rw [hbranch]
    rw [hw]
    rfl
  · intro hne
    have : ¬ (pts.map (fun p => (p.1, extractMarketCap p.2))).isEmpty = true := by
      simp [List.isEmpty_iff, hne]
    have hfull := (hbranch _).2 rfl
    rw [hfull, hw]
    simp only [if_neg this, List.map_map]
    rfl
  · intro v cs hc hlen
    simp [extractMarketCap, hc, hlen]
  · intro v hv
    rcases hv with hc | ⟨cs, hc, hlen⟩
    · simp [extractMarketCap, hc]
    · simp [extractMarketCap, hc]
      omega

/-- Closed witness for the parse theorem: a point with a long `c` array and
one with no `c` array. -/
theorem parse_points_spec_witness :
    (get_historical_market_cap
        (fun _ => ChartOutcome.points [(86400, ⟨some [1, 2, 7]⟩), (0, ⟨none⟩)]) 9 ⟨[], []⟩).1 =
      some [(1, 7), (0, 0)] := by
  have h := (parse_points_spec
      (fun _ => ChartOutcome.points [(86400, ⟨some [1, 2, 7]⟩), (0, ⟨none⟩)]) 9 ⟨[], []⟩
      [(86400, ⟨some [1, 2, 7]⟩), (0, ⟨none⟩)] (by decide) rfl).2.1 (by decide)
  rw [h]
  decide

/-- C4 counterexample: a successful fetch whose response lists a later day
first and two timestamps inside the same day produces a series whose date
column is neither sorted ascending nor free of same-day duplicates. -/
theorem series_sorted_dedup_counterexample :
    (get_historical_market_cap
        (fun _ => ChartOutcome.points
          [(86400, ⟨some [0, 0, 5]⟩), (0, ⟨some [0, 0, 3]⟩), (30, ⟨some [0, 0, 4]⟩)])
        1 ⟨[], []⟩).1 =
      some [(1, 5), (0, 3), (0, 4)] ∧
    ([((1 : Nat), (5 : ℚ)), (0, 3), (0, 4)].map Prod.fst = [1, 0, 0]) ∧
    ¬ (List.Sorted (· ≤ ·) ([1, 0, 0] : List Nat) ∧ ([1, 0, 0] : List Nat).Nodup) := by
  refine ⟨by decide, by decide, ?_⟩
  rintro ⟨hs, -⟩
  have := List.rel_of_sorted_cons hs 0 (by simp)
  omega

/-- C4 (amended): the series a successful remote fetch returns has each
entry's date equal to its timestamp truncated to day granularity, with the
entries in response iteration order; it is neither sorted nor
day-deduplicated by the fetcher. -/
theorem series_dates_truncated_response_order (world : Nat → ChartOutcome) (cmc_id : Nat)
    (st : Store) (pts : List (Nat × PointVal))
    (hempty : st.mcCache.filter (fun r => r.cmc_id == cmc_id) = [])
    (hw : world cmc_id = ChartOutcome.points pts) (hne : pts ≠ []) :
    ∃ l, (get_historical_market_cap world cmc_id st).1 = some l ∧
      l.map Prod.fst = pts.map (fun p => p.1 / 86400) ∧
      l.map Prod.snd = pts.map (fun p => extractMarketCap p.2) := by
  refine ⟨pts.map (fun p => (p.1 / 86400, extractMarketCap p.2)),
    (parse_points_spec world cmc_id st pts hempty hw).2.1 hne, ?_, ?_⟩ <;>
    simp [List.map_map]

/-- Closed witness for the amended series-shape theorem at a concrete
two-point response. -/
theorem series_dates_truncated_response_order_witness :
    ∃ l, (get_historical_market_cap
        (fun _ => ChartOutcome.points [(86400, ⟨some [1, 2, 7]⟩), (0, ⟨none⟩)]) 4 ⟨[], []⟩).1 =
      some l ∧
      l.map Prod.fst = [(86400, (⟨some [1, 2, 7]⟩ : PointVal)), (0, ⟨none⟩)].map
        (fun p => p.1 / 86400) ∧
      l.map Prod.snd = [(86400, (⟨some [1, 2, 7]⟩ : PointVal)), (0, ⟨none⟩)].map
        (fun p => extractMarketCap p.2) :=
  series_dates_truncated_response_order
    (fun _ => ChartOutcome.points [(86400, ⟨some [1, 2, 7]⟩), (0, ⟨none⟩)]) 4 ⟨[], []⟩
    [(86400, ⟨some [1, 2, 7]⟩), (0, ⟨none⟩)] (by decide) rfl (by decide)

/-- Embedding of `Series.rolling(window, min_periods=1).mean()` as used in
`aggregate_market_cap`: the value at position `i` is the mean of the window
of observations from position `i + 1 - window` (clipped at the start)
through position `i`. -/
def rollingMean (window : Nat) (xs : List ℚ) : List ℚ :=
  (List.range xs.length).map (fun i =>
    let win := (xs.take (i + 1)).drop (i + 1 - window)
    win.sum / (win.length : ℚ))

/-- Last `k` elements of a list. -/
def lastN {α : Type _} (k : Nat) (l : List α) : List α := l.drop (l.length - k)

/-- C5: the smoothing step replaces the value at position `i` by the
arithmetic mean of the last `min 30 (i+1)` observations ending at and
including position `i` (that window indeed has `min 30 (i+1)` elements);
in particular `[10, 20, 30]` smooths to `[10, 15, 20]`. -/
theorem smoothing_trailing_mean :
    (∀ (xs : List ℚ) (i : Nat), i < xs.length →
      (rollingMean 30 xs)[i]? =
        some ((lastN (min 30 (i + 1)) (xs.take (i + 1))).sum / ((min 30 (i + 1) : Nat) : ℚ)) ∧
      (lastN (min 30 (i + 1)) (xs.take (i + 1))).length = min 30 (i + 1)) ∧
    rollingMean 30 [10, 20, 30] = [10, 15, 20] := by
  constructor
  · intro xs i hi
    have hlen : (xs.take (i + 1)).length = i + 1 := by
      rw [List.length_take]; omega
    have hwin : (xs.take (i + 1)).drop (i + 1 - 30) = lastN (min 30 (i + 1)) (xs.take (i + 1)) := by
      unfold lastN
      rw [hlen]
      congr 1
      omega
    have hwl : ((xs.take (i + 1)).drop (i + 1 - 30)).length = min 30 (i + 1) := by
      rw [List.length_drop, hlen]; omega
    have hval : (rollingMean 30 xs)[i]? =
        some (((xs.take (i + 1)).drop (i + 1 - 30)).sum /
          ((((xs.take (i + 1)).drop (i + 1 - 30)).length : Nat) : ℚ)) := by
      rw [rollingMean, List.getElem?_map, List.getElem?_range hi]
      rfl
    refine ⟨?_, ?_⟩
    · rw [hval, hwl, hwin]
    · rw [← hwin, hwl]
  · rw [rollingMean]
    norm_num [List.range_succ]

/-- Closed witness for the smoothing theorem at position 1 of the series
`[10, 20, 30]`. -/
theorem smoothing_trailing_mean_witness :
    (1 < ([10, 20, 30] : List ℚ).length) ∧
    (rollingMean 30 [10, 20, 30])[1]? =
      some ((lastN (min 30 2) (([10, 20, 30] : List ℚ).take 2)).sum / ((min 30 2 : Nat) : ℚ)) :=
  ⟨by decide, (smoothing_trailing_mean.1 [10, 20, 30] 1 (by decide)).1⟩

/-- One step of the iterated `pd.merge(..., on="date", how="outer")` in
`main`: every existing row gains a column holding the new table's value for
its date (missing values, pandas `NaN`, modelled as `none`), and a row is
appended for every date of the new table not yet present, its earlier
columns padded with `none`.  The first component counts the tables merged
so far.  The source seeds the fold with the first table itself; merging
into the empty zero-column frame produces exactly that, so the fold below
starts from `(0, [])`. -/
def mergeStep (acc : Nat × List (Nat × List (Option ℚ))) (df : List (Nat × ℚ)) :
    Nat × List (Nat × List (Option ℚ)) :=
  (acc.1 + 1,
    acc.2.map (fun r => (r.1, r.2 ++ [df.lookup r.1])) ++
      (df.filter (fun x => !((acc.2.map Prod.fst).contains x.1))).map
        (fun x => (x.1, List.replicate acc.1 none ++ [some x.2])))

/-- Embedding of the combine step of `main`: iterated outer merge of the
per-platform tables on the date axis, `fillna(0)`, then `sort_values` on
the date. -/
def combineTables (ps : List (List (Nat × ℚ))) : List (Nat × List ℚ) :=
  List.insertionSort (fun a b => a.1 ≤ b.1)
    (((ps.foldl mergeStep (0, [])).2).map (fun r => (r.1, r.2.map (fun o => o.getD 0))))

/-- Membership form of `List.contains` for lawful `BEq`. -/
theorem contains_eq_mem {α : Type _} [BEq α] [LawfulBEq α] (l : List α) (a : α) :
    l.contains a = true ↔ a ∈ l := by
  simp [List.contains, List.elem_iff]

/-- An association-list lookup of an absent key fails. -/
theorem lookup_eq_none_of_not_mem {α β : Type _} [BEq α] [LawfulBEq α] {a : α}
    {l : List (α × β)} (h : a ∉ l.map Prod.fst) : List.lookup a l = none := by
  induction l with
  | nil => rfl
  | cons x t ih =>
    simp only [List.map_cons, List.mem_cons] at h
    push_neg at h
    cases x with
    | mk k b =>
      have hk : (a == k) = false := by simpa using h.1
      rw [List.lookup_cons, hk]
      exact ih h.2

/-- An association-list lookup over duplicate-free keys finds a member's
value. -/
theorem lookup_eq_some_of_mem {α β : Type _} [BEq α] [LawfulBEq α] {a : α} {b : β}
    {l : List (α × β)} (hnd : (l.map Prod.fst).Nodup) (hmem : (a, b) ∈ l) :
    List.lookup a l = some b := by
  induction l with
  | nil => simp at hmem
  | cons x t ih =>
    simp only [List.map_cons, List.nodup_cons] at hnd
    rcases List.mem_cons.1 hmem with rfl | hmem'
    · rw [List.lookup_cons]
      simp
    · cases x with
      | mk k v =>
        have hk : (a == k) = false := by
          have : a ∈ t.map Prod.fst := List.mem_map.2 ⟨(a, b), hmem', rfl⟩
          have hne : ¬ a = k := fun he => hnd.1 (he ▸ this)
          simpa using hne
        rw [List.lookup_cons, hk]
        exact ih hnd.2 hmem'

/-- Firsts of rows rebuilt from firsts are unchanged. -/
theorem map_fst_pair_map {α β γ : Type _} (l : List (α × β)) (f : α × β → γ) :
    (l.map (fun r => (r.1, f r))).map Prod.fst = l.map Prod.fst := by
  rw [List.map_map]
  rfl

/-- Invariant of the iterated outer merge: after merging the tables in
`done`, the accumulated frame has duplicate-free dates, its dates are
exactly the union of the merged tables' dates, and each row has one cell
per merged table holding that table's lookup result for the row's date. -/
def MergedInv (done : List (List (Nat × ℚ))) (acc : List (Nat × List (Option ℚ))) : Prop :=
  (acc.map Prod.fst).Nodup ∧
  (∀ d, d ∈ acc.map Prod.fst ↔ ∃ p ∈ done, d ∈ p.map Prod.fst) ∧
  (∀ r ∈ acc, r.2.length = done.length ∧
    ∀ j : Nat, (done[j]?).map (fun dj => List.lookup r.1 dj) = r.2[j]?)

/-- One merge step preserves the invariant and increments the column
count. -/
theorem mergeStep_inv (done : List (List (Nat × ℚ))) (acc : List (Nat × List (Option ℚ)))
    (df : List (Nat × ℚ)) (hdf : (df.map Prod.fst).Nodup) (hinv : MergedInv done acc) :
    (mergeStep (done.length, acc) df).1 = (done ++ [df]).length ∧
    MergedInv (done ++ [df]) (mergeStep (done.length, acc) df).2 := by
  obtain ⟨hnd, hmem, hrows⟩ := hinv
  have hnotin_of_filter : ∀ x ∈ df.filter (fun x => !((acc.map Prod.fst).contains x.1)),
      x.1 ∉ acc.map Prod.fst := by
    intro x hx hm
    have hcond := (List.mem_filter.1 hx).2
    rw [(contains_eq_mem (acc.map Prod.fst) x.1).2 hm] at hcond
    simp at hcond
  refine ⟨by simp [mergeStep], ?_, ?_, ?_⟩
  · -- duplicate-free dates
    simp only [mergeStep, List.map_append]
    rw [map_fst_pair_map, map_fst_pair_map]
    refine List.Nodup.append hnd ?_ ?_
    · exact ((List.filter_sublist df).map Prod.fst).nodup hdf
    · intro d hd1 hd2
      obtain ⟨x, hx, hxd⟩ := List.mem_map.1 hd2
      exact hnotin_of_filter x hx (hxd ▸ hd1)
  · -- dates are the union of dates
    intro d
    simp only [mergeStep, List.map_append]
    rw [map_fst_pair_map, map_fst_pair_map, List.mem_append]
    have h2 : d ∈ (df.filter (fun x => !((acc.map Prod.fst).contains x.1))).map Prod.fst ↔
        (d ∈ df.map Prod.fst ∧ d ∉ acc.map Prod.fst) := by
      constructor
      · rintro hd
        obtain ⟨x, hx, rfl⟩ := List.mem_map.1 hd
        exact ⟨List.mem_map.2 ⟨x, (List.mem_filter.1 hx).1, rfl⟩, hnotin_of_filter x hx⟩
      · rintro ⟨hd, hnotin⟩
        obtain ⟨x, hx, rfl⟩ := List.mem_map.1 hd
        refine List.mem_map.2 ⟨x, List.mem_filter.2 ⟨hx, ?_⟩, rfl⟩
        simp [contains_eq_mem, hnotin]
    rw [h2, hmem d]
    constructor
    · rintro (⟨p, hp, hdp⟩ | ⟨hdf2, -⟩)
      · exact ⟨p, by simp [hp], hdp⟩
      · exact ⟨df, by simp, hdf2⟩
    · rintro ⟨p, hp, hdp⟩
      rcases List.mem_append.1 hp with hp | hp
      · exact Or.inl ⟨p, hp, hdp⟩
      · rw [List.mem_singleton] at hp
        subst hp
        by_cases hin : d ∈ acc.map Prod.fst
        · exact Or.inl ((hmem d).1 hin)
        · exact Or.inr ⟨hdp, fun hex => hin ((hmem d).2 hex)⟩
  · -- per-row cell contents
    intro r hr
    simp only [mergeStep] at hr
    rcases List.mem_append.1 hr with hrA | hrB
    · obtain ⟨r₀, hr₀, rfl⟩ := List.mem_map.1 hrA
      obtain ⟨hl₀, hc₀⟩ := hrows r₀ hr₀
      refine ⟨by simp [hl₀], ?_⟩
      intro j
      rcases Nat.lt_trichotomy j done.length with hj | hj | hj
      · have hL : (done ++ [df])[j]? = done[j]? := by
          rw [List.getElem?_append, if_pos hj]
        have hR : (r₀.2 ++ [df.lookup r₀.1])[j]? = r₀.2[j]? := by
          rw [List.getElem?_append, if_pos (by omega)]
        rw [hL, hR]
        exact hc₀ j
      · subst hj
        have hL : (done ++ [df])[done.length]? = some df := by
          rw [List.getElem?_append, if_neg (by omega), Nat.sub_self]
          rfl
        have hR : (r₀.2 ++ [df.lookup r₀.1])[done.length]? = some (df.lookup r₀.1) := by
          rw [List.getElem?_append, if_neg (by omega), hl₀, Nat.sub_self]
          rfl
        rw [hL, hR]
        rfl
      · have hL : (done ++ [df])[j]? = none := by
          apply List.getElem?_eq_none
          simp only [List.length_append, List.length_singleton]
          omega
        have hR : (r₀.2 ++ [df.lookup r₀.1])[j]? = none := by
          apply List.getElem?_eq_none
          simp only [List.length_append, List.length_singleton, hl₀]
          omega
        rw [hL, hR]
        rfl
    · obtain ⟨x, hx, rfl⟩ := List.mem_map.1 hrB
      have hxdf : x ∈ df := (List.mem_filter.1 hx).1
      have hnotin : x.1 ∉ acc.map Prod.fst := hnotin_of_filter x hx
      have hnodone : ∀ p ∈ done, x.1 ∉ p.map Prod.fst := by
        intro p hp hxp
        exact hnotin ((hmem x.1).2 ⟨p, hp, hxp⟩)
      refine ⟨by simp, ?_⟩
      intro j
      rcases Nat.lt_trichotomy j done.length with hj | hj | hj
      · have hL : (done ++ [df])[j]? = some done[j] := by
          rw [List.getElem?_append, if_pos hj]
          exact List.getElem?_eq_getElem hj
        have hR : (List.replicate done.length (none : Option ℚ) ++ [some x.2])[j]? =
            some none := by
          rw [List.getElem?_append, if_pos (by simpa using hj)]
          simp [List.getElem?_replicate, hj]
        rw [hL, hR]
        simp only [Option.map_some']
        congr 1
        exact lookup_eq_none_of_not_mem (hnodone _ (List.getElem_mem hj))
      · subst hj
        have hL : (done ++ [df])[done.length]? = some df := by
          rw [List.getElem?_append, if_neg (by omega), Nat.sub_self]
          rfl
        have hR : (List.replicate done.length (none : Option ℚ) ++ [some x.2])[done.length]? =
            some (some x.2) := by
          rw [List.getElem?_append, if_neg (by simp), List.length_replicate, Nat.sub_self]
          rfl
        rw [hL, hR]
        simp only [Option.map_some']
        congr 1
        have hxx : (x.1, x.2) ∈ df := by
          rw [Prod.mk.eta]
          exact hxdf
        exact lookup_eq_some_of_mem hdf hxx
      · have hL : (done ++ [df])[j]? = none := by
          apply List.getElem?_eq_none
          simp only [List.length_append, List.length_singleton]
          omega
        have hR : (List.replicate done.length (none : Option ℚ) ++ [some x.2])[j]? = none := by
          apply List.getElem?_eq_none
          simp only [List.length_append, List.length_singleton, List.length_replicate]
          omega
        rw [hL, hR]
        rfl

/-- The invariant holds after folding any list of duplicate-free-keyed
tables into an invariant-satisfying accumulator. -/
theorem foldl_mergeStep_inv (ps done : List (List (Nat × ℚ)))
    (acc : List (Nat × List (Option ℚ)))
    (hps : ∀ p ∈ ps, (p.map Prod.fst).Nodup) (hinv : MergedInv done acc) :
    MergedInv (done ++ ps) (ps.foldl mergeStep (done.length, acc)).2 := by
  induction ps generalizing done acc with
  | nil => simpa using hinv
  | cons p rest ih =>
    have h1 := mergeStep_inv done acc p (hps p (by simp)) hinv
    have hps' : ∀ q ∈ rest, (q.map Prod.fst).Nodup := fun q hq => hps q (by simp [hq])
    have hfold : (p :: rest).foldl mergeStep (done.length, acc) =
        rest.foldl mergeStep ((done ++ [p]).length, (mergeStep (done.length, acc) p).2) := by
      rw [List.foldl_cons]
      congr 1
      rw [← h1.1]
    rw [hfold]
    have := ih (done ++ [p]) (mergeStep (done.length, acc) p).2 hps' h1.2
    simpa [List.append_assoc] using this

/-- Sorting rows by date is total and transitive. -/
instance : IsTotal (Nat × List ℚ) (fun a b => a.1 ≤ b.1) :=
  ⟨fun a b => Nat.le_total a.1 b.1⟩

/-- Sorting rows by date is transitive. -/
instance : IsTrans (Nat × List ℚ) (fun a b => a.1 ≤ b.1) :=
  ⟨fun _ _ _ hab hbc => Nat.le_trans hab hbc⟩

/-- C6: combining per-platform aggregates outer-joins them on the date axis:
for tables with duplicate-free dates the result has duplicate-free dates,
sorted ascending, its dates are exactly the union of the platforms' dates,
and every row holds one cell per platform equal to that platform's value at
the row's date, or `0` when the platform lacks that date; in particular
platform A at day 1 with value 5 and platform B at day 2 with value 7
combine to the rows `(1, A=5, B=0)` and `(2, A=0, B=7)`. -/
theorem combine_zero_fill_outer_join :
    (∀ ps : List (List (Nat × ℚ)), (∀ p ∈ ps, (p.map Prod.fst).Nodup) →
      ((combineTables ps).map Prod.fst).Nodup ∧
      List.Sorted (· ≤ ·) ((combineTables ps).map Prod.fst) ∧
      (∀ d, d ∈ (combineTables ps).map Prod.fst ↔ ∃ p ∈ ps, d ∈ p.map Prod.fst) ∧
      (∀ r ∈ combineTables ps, r.2.length = ps.length ∧
        ∀ j : Nat, (ps[j]?).map (fun p => (List.lookup r.1 p).getD 0) = r.2[j]?)) ∧
    combineTables [[(1, 5)], [(2, 7)]] = [(1, [5, 0]), (2, [0, 7])] := by
  constructor
  · intro ps hps
    have hinv : MergedInv ps (ps.foldl mergeStep (0, [])).2 := by
      have h0 : MergedInv [] [] := ⟨List.nodup_nil, by simp, by simp⟩
      simpa using foldl_mergeStep_inv ps [] [] hps h0
    obtain ⟨hnd, hmem, hrows⟩ := hinv
    have hperm : List.Perm (combineTables ps)
        (((ps.foldl mergeStep (0, [])).2).map (fun r => (r.1, r.2.map (fun o => o.getD 0)))) := by
      rw [combineTables]
      exact List.perm_insertionSort _ _
    have hpermfst : List.Perm ((combineTables ps).map Prod.fst)
        (((ps.foldl mergeStep (0, [])).2).map Prod.fst) := by
      have := hperm.map Prod.fst
      rwa [map_fst_pair_map] at this
    refine ⟨?_, ?_, ?_, ?_⟩
    · exact hpermfst.nodup_iff.2 hnd
    · have hs : List.Sorted (fun a b : Nat × List ℚ => a.1 ≤ b.1) (combineTables ps) := by
        rw [combineTables]
        exact List.sorted_insertionSort _ _
      exact List.Pairwise.map Prod.fst (fun a b h => h) hs
    · intro d
      rw [hpermfst.mem_iff]
      exact hmem d
    · intro r hr
      have hrf := hperm.mem_iff.1 hr
      obtain ⟨r₀, hr₀, rfl⟩ := List.mem_map.1 hrf
      obtain ⟨hl₀, hc₀⟩ := hrows r₀ hr₀
      refine ⟨by simpa using hl₀, ?_⟩
      intro j
      rw [List.getElem?_map, ← hc₀ j, Option.map_map]
      rfl
  · decide

/-- Closed witness for the combine theorem at the two concrete one-day
platforms of the claim. -/
theorem combine_zero_fill_outer_join_witness :
    (∀ p ∈ [[((1 : Nat), (5 : ℚ))], [(2, 7)]], (p.map Prod.fst).Nodup) ∧
    List.Sorted (· ≤ ·) ((combineTables [[(1, 5)], [(2, 7)]]).map Prod.fst) :=
  ⟨by decide,
    (combine_zero_fill_outer_join.1 [[(1, 5)], [(2, 7)]] (by decide)).2.1⟩

/-- Embedding of `combined_df.resample("M").mean()` over the months that
contain at least one row: group the date-sorted rows by the calendar month
of their date (`monthOf` abstracts the day-to-month truncation pandas
applies), one output row per distinct month in first-seen order, each of
the `k` platform columns holding the arithmetic mean of that column over
the month's rows.  (For months inside the covered range with no rows at
all pandas emits an all-`NaN` row; such rows carry no data and are not
modelled.) -/
def resampleMonthly (monthOf : Nat → Nat) (k : Nat) (rows : List (Nat × List ℚ)) :
    List (Nat × List ℚ) :=
  ((rows.map (fun r => monthOf r.1)).dedup).map (fun m =>
    let grp := (rows.filter (fun r => monthOf r.1 == m)).map Prod.snd
    (m, (List.range k).map (fun j => (grp.map (fun c => c.getD j 0)).sum / (grp.length : ℚ))))

/-- Filtering a list with injective-on-it key projection for a member's key
keeps exactly that member. -/
theorem filter_key_singleton {α β : Type _} [DecidableEq β] (f : α → β) :
    ∀ l : List α, (l.map f).Nodup → ∀ e ∈ l, l.filter (fun x => f x == f e) = [e] := by
  intro l
  induction l with
  | nil => intro _ e he; simp at he
  | cons h t ih =>
    intro hnd e he
    simp only [List.map_cons, List.nodup_cons] at hnd
    rcases List.mem_cons.1 he with rfl | he'
    · rw [List.filter_cons_of_pos (by simp)]
      have hft : t.filter (fun x => f x == f e) = [] := by
        rw [List.filter_eq_nil_iff]
        intro a ha
        simp only [beq_iff_eq]
        intro hfa
        exact hnd.1 (hfa ▸ List.mem_map.2 ⟨a, ha, rfl⟩)
      rw [hft]
    · have hne : (f h == f e) = false := by
        have hm : f e ∈ t.map f := List.mem_map.2 ⟨e, he', rfl⟩
        have : ¬ f h = f e := fun hfe => hnd.1 (hfe ▸ hm)
        simpa using this
      rw [List.filter_cons_of_neg (by simp [hne])]
      exact ih hnd.2 e he'

/-- C7: monthly resampling produces one row per distinct calendar month of
the combined table, and each cell holds the arithmetic mean of its column
over the rows falling in that month; in particular thirty daily values
1..30 lying in one month resample to the single row holding their mean
31/2. -/
theorem monthly_resample_mean :
    (∀ (monthOf : Nat → Nat) (k : Nat) (rows : List (Nat × List ℚ)),
      (resampleMonthly monthOf k rows).map Prod.fst =
        (rows.map (fun r => monthOf r.1)).dedup ∧
      ((resampleMonthly monthOf k rows).map Prod.fst).Nodup ∧
      (∀ e ∈ resampleMonthly monthOf k rows,
        ((resampleMonthly monthOf k rows).filter (fun x => x.1 == e.1)).length = 1 ∧
        e.2.length = k ∧
        ∀ j : Nat, j < k →
          e.2[j]? = some
            ((((rows.filter (fun r => monthOf r.1 == e.1)).map Prod.snd).map
                (fun c => c.getD j 0)).sum /
              (((rows.filter (fun r => monthOf r.1 == e.1)).map Prod.snd).length : ℚ)))) ∧
    resampleMonthly (fun d => d / 31) 1 ((List.range 30).map (fun d => (d, [(d : ℚ) + 1]))) =
      [(0, [31 / 2])] := by
  constructor
  · intro monthOf k rows
    have hfst : (resampleMonthly monthOf k rows).map Prod.fst =
        (rows.map (fun r => monthOf r.1)).dedup := by
      rw [resampleMonthly, List.map_map]
      exact List.map_id' _
    refine ⟨hfst, by rw [hfst]; exact List.nodup_dedup _, ?_⟩
    intro e he
    refine ⟨?_, ?_, ?_⟩
    · have hone := filter_key_singleton Prod.fst (resampleMonthly monthOf k rows)
        (by rw [hfst]; exact List.nodup_dedup _) e he
      rw [hone]
      rfl
    · obtain ⟨m, hm, rfl⟩ := List.mem_map.1 he
      simp
    · intro j hj
      obtain ⟨m, hm, rfl⟩ := List.mem_map.1 he
      rw [List.getElem?_map, List.getElem?_range hj]
      rfl
  · have hrows : (((List.range 30).map (fun d => ((d : Nat), [(d : ℚ) + 1]))).map
        (fun r => r.1 / 31)) = List.replicate 30 0 := by
      rw [List.map_map, List.eq_replicate_iff]
      refine ⟨by simp, ?_⟩
      intro b hb
      obtain ⟨d, hd, rfl⟩ := List.mem_map.1 hb
      have hd30 : d < 30 := List.mem_range.1 hd
      show d / 31 = 0
      exact Nat.div_eq_of_lt (by omega)
    have hfilt : ((List.range 30).map (fun d => ((d : Nat), [(d : ℚ) + 1]))).filter
        (fun r => r.1 / 31 == 0) =
        (List.range 30).map (fun d => ((d : Nat), [(d : ℚ) + 1])) := by
      rw [List.filter_eq_self]
      intro a ha
      obtain ⟨d, hd, rfl⟩ := List.mem_map.1 ha
      have hd30 : d < 30 := List.mem_range.1 hd
      have : d / 31 = 0 := Nat.div_eq_of_lt (by omega)
      simpa using this
    unfold resampleMonthly
    rw [hrows]
    have hded : (List.replicate 30 (0 : Nat)).dedup = [0] := by simp
    rw [hded]
    simp only [List.map_cons, List.map_nil, hfilt, List.map_map]
    norm_num [List.range_succ]


/-- Closed witness for the resampling theorem: a single one-day, one-column
table resamples to itself and its month appears in exactly one row. -/
theorem monthly_resample_mean_witness :
    ((0 : Nat), [(5 : ℚ)]) ∈ resampleMonthly (fun d => d / 31) 1 [(0, [5])] ∧
    ((resampleMonthly (fun d => d / 31) 1 [((0 : Nat), [(5 : ℚ)])]).filter
      (fun x => x.1 == (0 : Nat))).length = 1 := by
  have hrs : resampleMonthly (fun d => d / 31) 1 [((0 : Nat), [(5 : ℚ)])] = [(0, [5])] := by
    simp [resampleMonthly, List.range_succ]
  constructor
  · rw [hrs]
    simp
  · have h := ((monthly_resample_mean.1 (fun d => d / 31) 1 [(0, [5])]).2.2 (0, [5])
      (by rw [hrs]; simp)).1
    simpa using h

/-- Line filtering in `main`: strip every line and keep the non-blank
ones. -/
def nonBlankLines (ls : List String) : List String :=
  (ls.map String.trim).filter (fun s => !(s == ""))

/-- Grouping into `all_chains` in `main`: append the id to the chain's
bucket, creating the bucket on first sight (Python dict insertion
order). -/
def addChain (chains : List (String × List Nat)) (c : String) (n : Nat) :
    List (String × List Nat) :=
  if (chains.map Prod.fst).contains c then
    chains.map (fun e => if e.1 == c then (e.1, e.2 ++ [n]) else e)
  else chains ++ [(c, [n])]

/-- The URL loop of `main`: resolve each URL in order, threading the store,
counting external page fetches, and grouping the ids of the truthy
`(cmc_id, chain)` results by chain. -/
def resolveLoop (rw : String → PageOutcome) :
    List String → Store → List (String × List Nat) → Nat →
    List (String × List Nat) × Store × Nat
  | [], st, chains, calls => (chains, st, calls)
  | url :: rest, st, chains, calls =>
    let out := get_token_info rw url st
    let chains' :=
      match out.1 with
      | (some n, some c) => if n ≠ 0 ∧ c ≠ "" then addChain chains c n else chains
      | _ => chains
    resolveLoop rw rest out.2.1 chains' (calls + out.2.2)

/-- The per-date accumulation dict of `aggregate_market_cap`: add the value
to the date's sum, creating the entry on first sight. -/
def addToAgg (agg : List (Nat × ℚ)) (d : Nat) (v : ℚ) : List (Nat × ℚ) :=
  if (agg.map Prod.fst).contains d then
    agg.map (fun e => if e.1 == d then (e.1, e.2 + v) else e)
  else agg ++ [(d, v)]

/-- Date-sort a series and smooth its values with the 30-observation
rolling mean, as `aggregate_market_cap` does per identifier. -/
def smoothRows (rows : List (Nat × ℚ)) : List (Nat × ℚ) :=
  let sorted := List.insertionSort (fun a b => a.1 ≤ b.1) rows
  (sorted.zip (rollingMean 30 (sorted.map Prod.snd))).map (fun z => (z.1.1, z.2))

/-- Embedding of `aggregate_market_cap(cmc_ids, chain_name, conn)`: fetch
each id (threading the store and counting remote calls), skip the absent
ones, smooth each fetched series and fold it into the running per-date sum,
and finally sort the aggregate by date. -/
def aggregate_market_cap (cw : Nat → ChartOutcome) :
    List Nat → Store → List (Nat × ℚ) → Nat → List (Nat × ℚ) × Store × Nat
  | [], st, agg, calls => (List.insertionSort (fun a b => a.1 ≤ b.1) agg, st, calls)
  | cmc_id :: rest, st, agg, calls =>
    let out := get_historical_market_cap cw cmc_id st
    let agg' :=
      match out.1 with
      | none => agg
      | some df => (smoothRows df).foldl (fun a r => addToAgg a r.1 r.2) agg
    aggregate_market_cap cw rest out.2.1 agg' (calls + out.2.2)

/-- The per-chain aggregation loop of `main`: aggregate each chain's ids
(chains with an empty id list are skipped before fetching, empty aggregates
are dropped afterwards). -/
def aggLoop (cw : Nat → ChartOutcome) :
    List (String × List Nat) → Store → List (String × List (Nat × ℚ)) → Nat →
    List (String × List (Nat × ℚ)) × Store × Nat
  | [], st, aggs, calls => (aggs, st, calls)
  | (c, ids) :: rest, st, aggs, calls =>
    if ids.isEmpty then aggLoop cw rest st aggs calls
    else
      let out := aggregate_market_cap cw ids st [] 0
      let aggs' := if out.1.isEmpty then aggs else aggs ++ [(c, out.1)]
      aggLoop cw rest out.2.1 aggs' (calls + out.2.2)

/-- Embedding of `main()`: returns the final monthly table handed to the
plotting sink (`none` on every early exit), the final store, the number of
external page fetches and the number of chart-endpoint requests.  The
schema-only `initialize_database` touches no record and is not modelled;
`monthOf` abstracts pandas' day-to-calendar-month truncation; a missing
input file is `none`. -/
def mainRun (rw : String → PageOutcome) (cw : Nat → ChartOutcome) (monthOf : Nat → Nat)
    (input : Option (List String)) (st : Store) :
    Option (List (Nat × List ℚ)) × Store × Nat × Nat :=
  match input with
  | none => (none, st, 0, 0)
  | some ls =>
    let currency_urls := nonBlankLines ls
    if currency_urls.isEmpty then (none, st, 0, 0)
    else
      let r := resolveLoop rw currency_urls st [] 0
      if r.1.isEmpty then (none, r.2.1, r.2.2, 0)
      else
        let a := aggLoop cw r.1 r.2.1 [] 0
        if a.1.isEmpty then (none, a.2.1, r.2.2, a.2.2)
        else
          (some (resampleMonthly monthOf (a.1.length) (combineTables (a.1.map Prod.snd))),
           a.2.1, r.2.2, a.2.2)

/-- C9: an input file with zero non-blank lines makes the pipeline exit
before any resolution or fetch attempt: no table is produced, the store is
unchanged (no cache record written), and zero page fetches and zero chart
requests are performed. -/
theorem empty_input_clean_termination (rw : String → PageOutcome) (cw : Nat → ChartOutcome)
    (monthOf : Nat → Nat) (ls : List String) (st : Store)
    (h : nonBlankLines ls = []) :
    mainRun rw cw monthOf (some ls) st = (none, st, 0, 0) := by
  simp only [mainRun]
  rw [h]
  rfl

/-- Closed witness for the empty-input theorem: a file with no lines at
all has zero non-blank lines. -/
theorem empty_input_clean_termination_witness :
    nonBlankLines [] = [] ∧
    mainRun (fun _ => PageOutcome.httpError) (fun _ => ChartOutcome.status404)
      (fun d => d / 31) (some []) ⟨[], []⟩ = (none, ⟨[], []⟩, 0, 0) :=
  ⟨rfl,
    empty_input_clean_termination (fun _ => PageOutcome.httpError)
      (fun _ => ChartOutcome.status404) (fun d => d / 31) [] ⟨[], []⟩ rfl⟩

end SolVsEth
